import Mathlib

/-!
Verification of the gImageReader excerpt consisting of `Recognizer.hh`,
`MainWindow.cc` and `Recognizer.cc` (the `Recognizer` component and the
`MainWindow` application shell).

Modelling conventions:
* `QString` is modelled as Lean `String`; string manipulation is carried out
  on the underlying character list `String.data` (Qt strings are sequences of
  characters; the parsing code only uses whole-character operations).
* Qt containers (`QList`, `QStringList`) are Lean lists.
* C++ `int` is modelled as `Int`; `QString::toInt` returns 0 when the parsed
  value does not fit into a 32-bit `int`, which the model reproduces.
* Side effects (message boxes, calls into the `OutputEditor`, tesseract calls,
  cross-thread `QMetaObject::invokeMethod` marshalling) are modelled as event
  traces: each function returns the list of observable events it performs, in
  order.
-/

namespace GImageReader

/-! ### QString primitives -/

/-- Splitting of a character sequence at every occurrence of `sep` (auxiliary
accumulator-based worker; empty pieces are kept). -/
def splitCharAux (sep : Char) : List Char → List Char → List (List Char)
  | [], acc => [acc.reverse]
  | c :: cs, acc =>
    if c = sep then acc.reverse :: splitCharAux sep cs []
    else splitCharAux sep cs (c :: acc)

/-- Models `QString::split(sep, QString::SkipEmptyParts)`: split at every
occurrence of `sep` and drop empty pieces. -/
def splitSkipEmpty (sep : Char) (s : List Char) : List (List Char) :=
  (splitCharAux sep s []).filter (fun t => t ≠ [])

/-- Models `QString::toInt()` on the digit-only strings produced by the
page-range parser: the decimal value of the digits, or 0 when the value does
not fit into a 32-bit signed `int` (Qt returns 0 on overflow). -/
def qCharsToInt (s : List Char) : Int :=
  let n : Nat := s.foldl (fun a c => a * 10 + (c.toNat - 48)) 0
  if n ≤ 2147483647 then (n : Int) else 0

/-- Models the QRegExp character class `\s` (whitespace). -/
def isQtSpace (c : Char) : Bool := c.isWhitespace

/-- Character class of the validation regular expression `^[\d,\-\s]+$` used
by `Recognizer::selectPages` (`\d` modelled as an ASCII digit). -/
def isPageRangeChar (c : Char) : Bool :=
  c.isDigit || c = ',' || c = '-' || isQtSpace c

/-- Models `validateRegEx.indexIn(text) != -1` for the anchored pattern
`^[\d,\-\s]+$`: the whole string is non-empty and consists of characters of
the class. -/
def pageRangeValid (s : List Char) : Bool :=
  !s.isEmpty && s.all isPageRangeChar

/-- Models `text.replace(QRegExp("\s+"), "")`: removal of all whitespace. -/
def removeWs (s : List Char) : List Char :=
  s.filter (fun c => !isQtSpace c)

/-- Models the C++ loop `for(int page = start; page <= stop; ++page)`
collecting `page`: the integers from `start` to `stop` inclusive. -/
def intRange (start stop : Int) : List Int :=
  (List.range (stop + 1 - start).toNat).map (fun i : Nat => start + (i : Int))

/-! ### The page-range parser of `Recognizer::selectPages`

Source (`Recognizer.cc`): one comma-separated block is dash-split with
`QString::SkipEmptyParts`; a single part is a page number kept when
`page > 0 && page <= nPages`; two parts are a range clamped by
`std::max(1, start)` and `std::min(nPages, end)`; anything else executes
`pages.clear(); break;`. -/

/-- Processing of one comma-separated block of the page-range string:
`some ps` is the list of pages this block appends, `none` is the
`pages.clear(); break;` branch. -/
def parseBlock (nPages : Int) (block : List Char) : Option (List Int) :=
  match splitSkipEmpty '-' block with
  | [r] =>
    let page := qCharsToInt r
    if 0 < page ∧ page ≤ nPages then some [page] else some []
  | [r1, r2] => some (intRange (max 1 (qCharsToInt r1)) (min nPages (qCharsToInt r2)))
  | _ => none

/-- The block loop of `Recognizer::selectPages`: accumulates pages block by
block; an invalid block clears the whole selection and stops. -/
def parseBlocks (nPages : Int) : List (List Char) → List Int → List Int
  | [], pages => pages
  | b :: bs, pages =>
    match parseBlock nPages b with
    | some ps => parseBlocks nPages bs (pages ++ ps)
    | none => []

/-- One parsing pass of `Recognizer::selectPages` over the entered text:
validate against `^[\d,\-\s]+$`, strip whitespace, split on commas and run the
block loop (an invalid string yields the empty selection). -/
def parsePageRange (nPages : Int) (text : String) : List Int :=
  if pageRangeValid text.data then
    parseBlocks nPages (splitSkipEmpty ',' (removeWs text.data)) []
  else []

/-! ### Claim-side restatement of the parser (C1)

The following definitions follow the words of claim C1, to be compared with
the source-derived `parsePageRange`. -/

/-- Claim C1's description of one block: a single number `n` contributes page
`n` exactly when `1 <= n <= nPages`; a block `a-b` contributes every page `p`
with `max(1,a) <= p <= min(nPages,b)`; a block that does not consist of
exactly one or exactly two (non-empty) dash-separated parts invalidates the
whole selection. -/
def specBlockPages (nPages : Int) (block : List Char) : Option (List Int) :=
  match splitSkipEmpty '-' block with
  | [n] =>
    let v := qCharsToInt n
    if 1 ≤ v ∧ v ≤ nPages then some [v] else some []
  | [a, b] => some (intRange (max 1 (qCharsToInt a)) (min nPages (qCharsToInt b)))
  | _ => none

/-- Claim C1's description of the whole parse: the string must match
`^[\d,\-\s]+$`; after whitespace removal it is split on commas into blocks;
if any block is invalid the whole selection is empty, regardless of the other
blocks; otherwise the selection is the concatenation of the blocks'
contributions. -/
def specParsePageRange (nPages : Int) (text : String) : List Int :=
  if pageRangeValid text.data then
    let blocks := splitSkipEmpty ',' (removeWs text.data)
    if blocks.any (fun b => (specBlockPages nPages b).isNone) then []
    else blocks.flatMap (fun b => (specBlockPages nPages b).getD [])
  else []

theorem parseBlock_eq_specBlockPages (nPages : Int) (b : List Char) :
    parseBlock nPages b = specBlockPages nPages b := by
  have h01 : ∀ v : Int, (0 < v ∧ v ≤ nPages) = (1 ≤ v ∧ v ≤ nPages) := fun v =>
    propext (by omega)
  rcases hs : splitSkipEmpty '-' b with _ | ⟨r, _ | ⟨r2, _ | _⟩⟩ <;>
    simp only [parseBlock, specBlockPages, hs, h01]

theorem parseBlocks_characterization (nPages : Int) (bs : List (List Char))
    (acc : List Int) :
    parseBlocks nPages bs acc =
      if bs.any (fun b => (parseBlock nPages b).isNone) then []
      else acc ++ bs.flatMap (fun b => (parseBlock nPages b).getD []) := by
  induction bs generalizing acc with
  | nil => simp [parseBlocks]
  | cons b bs ih =>
    cases h : parseBlock nPages b with
    | none => simp [parseBlocks, h]
    | some ps =>
      simp only [parseBlocks, h, List.any_cons, List.flatMap_cons,
        Option.isNone_some, Bool.false_or, Option.getD_some]
      rw [ih]
      split <;> simp [List.append_assoc]

/-- C1: for every input string, the `selectPages` parse validates the string
against `^[\d,\-\s]+$`, strips whitespace, splits on commas into blocks; a
single-number block `n` contributes page `n` exactly when `1 <= n <= nPages`,
a two-part block `a-b` contributes every page `p` with
`max(1,a) <= p <= min(nPages,b)`, and a block with any other number of
dash-separated parts (in particular more than two) makes the whole selection
empty regardless of the other blocks. -/
theorem c1_selectPages_parse (nPages : Int) (text : String) :
    parsePageRange nPages text = specParsePageRange nPages text := by
  unfold parsePageRange specParsePageRange
  split
  · rw [parseBlocks_characterization]
    simp [parseBlock_eq_specBlockPages]
  · rfl

/-! ### The `selectPages` dialog loop (C8) -/

/-- Outcome of one `m_pagesDialog->exec()` call: the dialog is accepted with
the current page-range text, or closed otherwise. -/
inductive DialogEvent
  | accepted (text : String)
  | rejected
deriving DecidableEq

/-- Result of `Recognizer::selectPages`: the returned page list, the number of
times the line edit was highlighted (red style sheet) because a parse produced
no pages, and whether the loop ended via the `break` after an accepted,
non-empty parse (as opposed to the dialog being closed/cancelled). -/
structure SelectResult where
  pages : List Int
  highlights : Nat
  acceptedExit : Bool
deriving DecidableEq

/-- The `while(m_pagesDialog->exec() == QDialog::Accepted)` loop of
`Recognizer::selectPages`, driven by the successive dialog outcomes: an
accepted text is parsed; an empty parse highlights the input field and keeps
the dialog open; a non-empty parse breaks out of the loop. -/
def selectPagesGo (nPages : Int) : List DialogEvent → SelectResult
  | [] => ⟨[], 0, false⟩
  | DialogEvent.rejected :: _ => ⟨[], 0, false⟩
  | DialogEvent.accepted t :: rest =>
    if parsePageRange nPages t = [] then
      ⟨(selectPagesGo nPages rest).pages, (selectPagesGo nPages rest).highlights + 1,
        (selectPagesGo nPages rest).acceptedExit⟩
    else ⟨parsePageRange nPages t, 0, true⟩

/-- `Recognizer::selectPages`: run the dialog loop, then `std::sort` the
collected pages (modelled by insertion sort, a sorting algorithm). -/
def selectPages (nPages : Int) (events : List DialogEvent) : SelectResult :=
  ⟨List.insertionSort (· ≤ ·) (selectPagesGo nPages events).pages,
    (selectPagesGo nPages events).highlights,
    (selectPagesGo nPages events).acceptedExit⟩

theorem mem_intRange {p start stop : Int} (h : p ∈ intRange start stop) :
    start ≤ p ∧ p ≤ stop := by
  simp only [intRange, List.mem_map, List.mem_range] at h
  obtain ⟨i, hi, rfl⟩ := h
  omega

theorem parseBlock_bounds {nPages : Int} {b : List Char} {ps : List Int}
    (h : parseBlock nPages b = some ps) : ∀ p ∈ ps, 1 ≤ p ∧ p ≤ nPages := by
  rcases hs : splitSkipEmpty '-' b with _ | ⟨r, _ | ⟨r2, _ | _⟩⟩ <;>
      simp only [parseBlock, hs] at h
  · exact Option.noConfusion h
  · split at h
    · rename_i hcond
      obtain rfl := Option.some.inj h
      intro p hp
      simp only [List.mem_singleton] at hp
      subst hp
      omega
    · obtain rfl := Option.some.inj h
      intro p hp
      cases hp
  · obtain rfl := Option.some.inj h
    intro p hp
    have hb := mem_intRange hp
    exact ⟨le_trans (le_max_left 1 _) hb.1, le_trans hb.2 (min_le_left _ _)⟩
  · exact Option.noConfusion h

theorem parseBlocks_bounds {nPages : Int} (bs : List (List Char))
    (acc : List Int) (hacc : ∀ p ∈ acc, 1 ≤ p ∧ p ≤ nPages) :
    ∀ p ∈ parseBlocks nPages bs acc, 1 ≤ p ∧ p ≤ nPages := by
  induction bs generalizing acc with
  | nil => simpa [parseBlocks] using hacc
  | cons b bs ih =>
    simp only [parseBlocks]
    cases h : parseBlock nPages b with
    | none => intro p hp; cases hp
    | some ps =>
      apply ih
      intro p hp
      rcases List.mem_append.1 hp with hp | hp
      · exact hacc p hp
      · exact parseBlock_bounds h p hp

theorem parsePageRange_bounds (nPages : Int) (text : String) :
    ∀ p ∈ parsePageRange nPages text, 1 ≤ p ∧ p ≤ nPages := by
  unfold parsePageRange
  split
  · exact parseBlocks_bounds _ [] (by intro p hp; cases hp)
  · intro p hp; cases hp

theorem selectPagesGo_bounds (nPages : Int) (events : List DialogEvent) :
    ∀ p ∈ (selectPagesGo nPages events).pages, 1 ≤ p ∧ p ≤ nPages := by
  induction events with
  | nil => intro p hp; cases hp
  | cons e rest ih =>
    cases e with
    | rejected => intro p hp; cases hp
    | accepted t =>
      by_cases hc : parsePageRange nPages t = []
      · simp only [selectPagesGo, if_pos hc]
        exact ih
      · simp only [selectPagesGo, if_neg hc]
        exact fun p hp => parsePageRange_bounds nPages t p hp

theorem selectPagesGo_acceptedExit (nPages : Int) (events : List DialogEvent) :
    (selectPagesGo nPages events).acceptedExit = true →
    (selectPagesGo nPages events).pages ≠ [] := by
  induction events with
  | nil => intro h; cases h
  | cons e rest ih =>
    cases e with
    | rejected => intro h; cases h
    | accepted t =>
      by_cases hc : parsePageRange nPages t = []
      · simp only [selectPagesGo, if_pos hc]
        exact ih
      · simp only [selectPagesGo, if_neg hc]
        intro _
        exact hc

/-- C8: the page list returned by `selectPages` is sorted in nondecreasing
order; every element lies between 1 and the displayer's page count inclusive;
when the loop exits through the accepted branch (dialog not cancelled) the
returned list is non-empty; and an accepted text whose parse is empty
highlights the input field (one more highlight) and keeps the dialog loop
running on the remaining interactions instead of returning. -/
theorem c8_selectPages_invariants (nPages : Int) (events : List DialogEvent) :
    List.Sorted (· ≤ ·) (selectPages nPages events).pages
    ∧ (∀ p ∈ (selectPages nPages events).pages, 1 ≤ p ∧ p ≤ nPages)
    ∧ ((selectPages nPages events).acceptedExit = true →
        (selectPages nPages events).pages ≠ [])
    ∧ (∀ t rest, parsePageRange nPages t = [] →
        selectPages nPages (DialogEvent.accepted t :: rest) =
          ⟨(selectPages nPages rest).pages, (selectPages nPages rest).highlights + 1,
            (selectPages nPages rest).acceptedExit⟩) := by
  refine ⟨List.sorted_insertionSort _ _, ?_, ?_, ?_⟩
  · intro p hp
    have hmem : p ∈ (selectPagesGo nPages events).pages :=
      (List.perm_insertionSort _ _).mem_iff.1 hp
    exact selectPagesGo_bounds nPages events p hmem
  · intro h hnil
    apply selectPagesGo_acceptedExit nPages events h
    have hperm := List.perm_insertionSort (· ≤ ·) (selectPagesGo nPages events).pages
    have hins : List.insertionSort (· ≤ ·) (selectPagesGo nPages events).pages = [] := hnil
    rw [hins] at hperm
    exact hperm.symm.eq_nil
  · intro t rest hparse
    simp [selectPages, selectPagesGo, hparse]

/-- Witness for C8 at concrete inputs: membership bound at `nPages = 3`,
events `[accepted "2"]`, and the highlight step at text `"-"`. -/
theorem c8_witness :
    ((1 : Int) ≤ 2 ∧ (2 : Int) ≤ 3)
    ∧ selectPages 3 [DialogEvent.accepted "-", DialogEvent.rejected] =
        ⟨(selectPages 3 [DialogEvent.rejected]).pages,
          (selectPages 3 [DialogEvent.rejected]).highlights + 1,
          (selectPages 3 [DialogEvent.rejected]).acceptedExit⟩ :=
  ⟨(c8_selectPages_invariants 3 [DialogEvent.accepted "2"]).2.1 2 (by decide),
    (c8_selectPages_invariants 3 [DialogEvent.rejected]).2.2.2 "-"
      [DialogEvent.rejected] (by decide)⟩

/-! ### The recognition loop of `Recognizer::recognize` (C2 - C6)

The loop body delegates to external collaborators (tesseract, the
`OutputEditor`, the main window); the model records each observable call as
an event, in the order the code performs them. -/

/-- Connection type of a `QMetaObject::invokeMethod` marshalling call issued
by the worker closure. -/
inductive ConnType
  | queued
  | blockingQueued
deriving DecidableEq

/-- Target of a cross-thread `QMetaObject::invokeMethod` call of the worker
closure of `Recognizer::recognize`. -/
inductive UITarget
  | pushState
  | setPage (page : Int)
  | popState
deriving DecidableEq

/-- Observable calls of `Recognizer::recognize` and
`Recognizer::recognizeImage`: output-editor calls (`initRead`, `read`,
`readError`, `finalizeRead`), tesseract `Recognize` calls, cross-thread UI
invocations, clipboard access and modal message boxes. `readImage` is the
`read` call made by `recognizeImage` (not tied to a page of the loop). -/
inductive REvent
  | initRead
  | finalizeRead
  | read (page : Int) (area : Nat)
  | readError (page : Int)
  | tessRecognize (page : Int) (area : Nat)
  | tessRecognizeImage
  | readImage
  | getUTF8Text
  | clipboardSetText
  | uiInvoke (target : UITarget) (conn : ConnType)
  | msgBoxRecogErrors (failedPages : List Int)
  | msgBoxInitFailed
deriving DecidableEq

/-- Result of `Recognizer::setPage` as used by the loop. The presentation
fields of `PageData` (`filename`, `angle`, `resolution`), which are only
copied into the read session data, are not modelled; the OCR area images are
opaque identifiers. -/
structure PageData where
  success : Bool
  ocrAreas : List Nat
deriving DecidableEq

/-- Environment of one recognition session: the return value of
`TessBaseAPI::Init` (`int ret = tess->Init(nullptr, language)` in
`initTesseract`), the `PageData` produced by `setPage` for each page, and the
progress monitor's cancellation: `cancelAt = some k` means the cancel flag is
observed set from the k-th `monitor.cancelled()` call (0-based) on, `none`
means the session is never cancelled. -/
structure REnv where
  initRet : Int
  pageData : Int → PageData
  cancelAt : Option Nat

/-- Models `ok = ret != -1` in `Recognizer::initTesseract`. -/
def initTesseractOk (ret : Int) : Bool := ret != -1

/-- Value of `monitor.cancelled()` at its `n`-th call; the flag is set once
and stays set, hence the monotone model. -/
def isCancelled (env : REnv) (n : Nat) : Bool :=
  match env.cancelAt with
  | none => false
  | some k => decide (k ≤ n)

/-- The inner loop `for(const QImage& image : pageData.ocrAreas)` of the
worker closure: per area one `tess->Recognize` call (the preceding
`SetImage`/`SetSourceResolution` calls are not modelled as events), then an
output-editor `read` unless `monitor.cancelled()` observes the cancellation;
`cnt` counts the `monitor.cancelled()` calls made so far and is returned
updated. -/
def runAreas (env : REnv) (page : Int) : List Nat → Nat → List REvent × Nat
  | [], cnt => ([], cnt)
  | a :: rest, cnt =>
    ((REvent.tessRecognize page a ::
        (if isCancelled env cnt then [] else [REvent.read page a])) ++
        (runAreas env page rest (cnt + 1)).1,
      (runAreas env page rest (cnt + 1)).2)

/-- The page loop `for(int page : pages)` of the worker closure. Per page: a
non-blocking queued `pushState` invocation, then a blocking queued `setPage`
invocation; on render failure the page is appended to the failure report, a
`readError` is issued and the loop continues with the next page (`continue`
skips the `popState` invocation and the cancellation check); on success the
area loop runs, a non-blocking queued `popState` invocation follows and the
loop breaks when the end-of-iteration `monitor.cancelled()` check observes
the cancellation. Returns the event trace and the failure report. -/
def runPages (env : REnv) : List Int → Nat → List REvent × List Int
  | [], _ => ([], [])
  | page :: rest, cnt =>
    if (env.pageData page).success = false then
      (REvent.uiInvoke UITarget.pushState ConnType.queued ::
          REvent.uiInvoke (UITarget.setPage page) ConnType.blockingQueued ::
          REvent.readError page :: (runPages env rest cnt).1,
        page :: (runPages env rest cnt).2)
    else
      if isCancelled env (runAreas env page (env.pageData page).ocrAreas cnt).2 then
        (REvent.uiInvoke UITarget.pushState ConnType.queued ::
            REvent.uiInvoke (UITarget.setPage page) ConnType.blockingQueued ::
            (runAreas env page (env.pageData page).ocrAreas cnt).1 ++
              [REvent.uiInvoke UITarget.popState ConnType.queued],
          [])
      else
        (REvent.uiInvoke UITarget.pushState ConnType.queued ::
            REvent.uiInvoke (UITarget.setPage page) ConnType.blockingQueued ::
            (runAreas env page (env.pageData page).ocrAreas cnt).1 ++
              REvent.uiInvoke UITarget.popState ConnType.queued ::
              (runPages env rest ((runAreas env page (env.pageData page).ocrAreas cnt).2 + 1)).1,
          (runPages env rest ((runAreas env page (env.pageData page).ocrAreas cnt).2 + 1)).2)

/-- `Recognizer::recognize`: inside the `if(ok)` branch the output editor's
`initRead` runs, then the page loop as a busy task, then `finalizeRead`, then
a critical message box listing the failed pages when the failure report is
non-empty. The source has no `else` branch: on failed initialization nothing
happens. The `SetPageSegMode`/`SetVariable` calls and the progress-widget
handling are not modelled as events. -/
def recognize (env : REnv) (pages : List Int) : List REvent :=
  if initTesseractOk env.initRet then
    REvent.initRead :: (runPages env pages 0).1 ++
      REvent.finalizeRead ::
        (if (runPages env pages 0).2 = [] then []
         else [REvent.msgBoxRecogErrors (runPages env pages 0).2])
  else []

/-- The `OutputDestination` enum of `Recognizer`. -/
inductive OutputDestination
  | buffer
  | clipboard

/-- `Recognizer::recognizeImage`: on failed initialization a critical message
box is shown and `false` returned; otherwise the image is recognized into the
output editor (Buffer destination) or onto the clipboard (Clipboard
destination) and `true` returned. -/
def recognizeImage (env : REnv) (dest : OutputDestination) : List REvent × Bool :=
  if initTesseractOk env.initRet then
    match dest with
    | OutputDestination.buffer =>
      (REvent.initRead :: REvent.tessRecognizeImage ::
          ((if isCancelled env 0 then [] else [REvent.readImage]) ++ [REvent.finalizeRead]),
        true)
    | OutputDestination.clipboard =>
      (REvent.tessRecognizeImage ::
          (if isCancelled env 0 then [] else [REvent.getUTF8Text, REvent.clipboardSetText]),
        true)
  else ([REvent.msgBoxInitFailed], false)

/-- Whether an event is a modal message box. -/
def isMsgBox : REvent → Bool
  | REvent.msgBoxRecogErrors _ => true
  | REvent.msgBoxInitFailed => true
  | _ => false

/-- A session whose `TessBaseAPI::Init` returned -1. -/
def envInitFail : REnv := ⟨-1, fun _ => ⟨true, []⟩, none⟩

/-- A session with successful initialization in which every page fails to
render. -/
def envPageFail : REnv := ⟨0, fun _ => ⟨false, []⟩, none⟩

/-- A session with successful initialization, one OCR area per page, never
cancelled. -/
def envOnePage : REnv := ⟨0, fun _ => ⟨true, [0]⟩, none⟩

/-- A session with successful initialization, one OCR area per page, whose
cancellation is observed from the second `monitor.cancelled()` call on. -/
def envCancel : REnv := ⟨0, fun _ => ⟨true, [0]⟩, some 1⟩

example : recognize envPageFail [1] =
    [REvent.initRead, REvent.uiInvoke UITarget.pushState ConnType.queued,
      REvent.uiInvoke (UITarget.setPage 1) ConnType.blockingQueued,
      REvent.readError 1, REvent.finalizeRead, REvent.msgBoxRecogErrors [1]] := by
  decide

example : recognize envOnePage [1, 2] =
    [REvent.initRead,
      REvent.uiInvoke UITarget.pushState ConnType.queued,
      REvent.uiInvoke (UITarget.setPage 1) ConnType.blockingQueued,
      REvent.tessRecognize 1 0, REvent.read 1 0,
      REvent.uiInvoke UITarget.popState ConnType.queued,
      REvent.uiInvoke UITarget.pushState ConnType.queued,
      REvent.uiInvoke (UITarget.setPage 2) ConnType.blockingQueued,
      REvent.tessRecognize 2 0, REvent.read 2 0,
      REvent.uiInvoke UITarget.popState ConnType.queued,
      REvent.finalizeRead] := by
  decide

example : recognize envCancel [1, 2] =
    [REvent.initRead,
      REvent.uiInvoke UITarget.pushState ConnType.queued,
      REvent.uiInvoke (UITarget.setPage 1) ConnType.blockingQueued,
      REvent.tessRecognize 1 0, REvent.read 1 0,
      REvent.uiInvoke UITarget.popState ConnType.queued,
      REvent.finalizeRead] := by
  decide

example : recognize envInitFail [1] = [] := by decide

/-- C2 counterexample: in the session `envInitFail`, whose
`TessBaseAPI::Init` returned -1, the multi-page `recognize` produces no
modal message box at all (in fact no event), contradicting the claim that
every operation initializing tesseract surfaces the failure via a modal
message box. -/
theorem c2_counterexample :
    initTesseractOk envInitFail.initRet = false
    ∧ (recognize envInitFail [1]).any isMsgBox = false := by
  exact ⟨rfl, rfl⟩

/-- C2 (amended): whenever tesseract initialization fails, `recognizeImage`
surfaces the failure via a modal critical message box and returns false, but
the multi-page `recognize` loop silently does nothing: no message box and no
other observable action (its `if(ok)` has no `else` branch). -/
theorem c2_init_failure_handling (env : REnv) (pages : List Int)
    (dest : OutputDestination) (h : initTesseractOk env.initRet = false) :
    recognize env pages = []
    ∧ recognizeImage env dest = ([REvent.msgBoxInitFailed], false) := by
  unfold recognize recognizeImage
  rw [h]
  exact ⟨rfl, rfl⟩

/-- Witness for C2 (amended) at the concrete session `envInitFail`. -/
theorem c2_witness :
    recognize envInitFail [1] = []
    ∧ recognizeImage envInitFail OutputDestination.buffer =
        ([REvent.msgBoxInitFailed], false) :=
  c2_init_failure_handling envInitFail [1] OutputDestination.buffer rfl

/-- C3: in the recognition loop, a page whose rendering fails (`setPage`
reports no success) gets a `readError` on the output editor, is appended to
the failure report, and the loop continues with the next page rather than
stopping; and after the loop, when the failure report is non-empty, a modal
critical message box listing all failed pages is shown. -/
theorem c3_render_failure (env : REnv) :
    (∀ page rest cnt, (env.pageData page).success = false →
      runPages env (page :: rest) cnt =
        (REvent.uiInvoke UITarget.pushState ConnType.queued ::
            REvent.uiInvoke (UITarget.setPage page) ConnType.blockingQueued ::
            REvent.readError page :: (runPages env rest cnt).1,
          page :: (runPages env rest cnt).2))
    ∧ (∀ pages, initTesseractOk env.initRet = true → (runPages env pages 0).2 ≠ [] →
        recognize env pages =
          REvent.initRead :: (runPages env pages 0).1 ++
            [REvent.finalizeRead, REvent.msgBoxRecogErrors (runPages env pages 0).2]) := by
  constructor
  · intro page rest cnt hfail
    simp [runPages, hfail]
  · intro pages hok hfail
    simp [recognize, hok, hfail]

/-- Witness for C3 at the concrete session `envPageFail` with page list
`[1]`. -/
theorem c3_witness :
    runPages envPageFail [1] 0 =
      (REvent.uiInvoke UITarget.pushState ConnType.queued ::
          REvent.uiInvoke (UITarget.setPage 1) ConnType.blockingQueued ::
          REvent.readError 1 :: (runPages envPageFail [] 0).1,
        1 :: (runPages envPageFail [] 0).2)
    ∧ recognize envPageFail [1] =
        REvent.initRead :: (runPages envPageFail [1] 0).1 ++
          [REvent.finalizeRead, REvent.msgBoxRecogErrors (runPages envPageFail [1] 0).2] :=
  ⟨(c3_render_failure envPageFail).1 1 [] 0 rfl,
    (c3_render_failure envPageFail).2 [1] rfl (by decide)⟩

/-- Connection-type discipline stated by the amended claim C6, as a predicate
on single events: `setPage` invocations are blocking queued, `pushState` and
`popState` invocations are (non-blocking) queued. -/
def connOk : REvent → Bool
  | REvent.uiInvoke (UITarget.setPage _) conn => conn == ConnType.blockingQueued
  | REvent.uiInvoke UITarget.pushState conn => conn == ConnType.queued
  | REvent.uiInvoke UITarget.popState conn => conn == ConnType.queued
  | _ => true

/-- C6 counterexample: the worker closure marshals its `pushState` update
with `Qt::QueuedConnection`, which is not a blocking queued invocation,
contradicting the claim that every cross-thread UI update it performs uses a
blocking queued invocation. -/
theorem c6_counterexample :
    REvent.uiInvoke UITarget.pushState ConnType.queued ∈ recognize envPageFail [1]
    ∧ ConnType.queued ≠ ConnType.blockingQueued := by
  constructor
  · decide
  · decide

theorem runAreas_connOk (env : REnv) (page : Int) (areas : List Nat)
    (cnt : Nat) : (runAreas env page areas cnt).1.all connOk = true := by
  induction areas generalizing cnt with
  | nil => rfl
  | cons a rest ih =>
    by_cases hc : isCancelled env cnt = true
    · simp [runAreas, hc, ih, connOk]
    · simp [runAreas, hc, ih, connOk]

theorem runPages_connOk (env : REnv) (pages : List Int) (cnt : Nat) :
    (runPages env pages cnt).1.all connOk = true := by
  induction pages generalizing cnt with
  | nil => rfl
  | cons page rest ih =>
    by_cases hf : (env.pageData page).success = false
    · simp [runPages, hf, ih, connOk]
    · by_cases hc :
        isCancelled env (runAreas env page (env.pageData page).ocrAreas cnt).2 = true
      · simp [runPages, hf, hc, connOk, runAreas_connOk]
      · simp [runPages, hf, hc, connOk, runAreas_connOk, ih]

/-- C6 (amended): every cross-thread UI update the worker closure performs
uses a queued invocation, but only the `setPage` call is a blocking queued
invocation (`Qt::BlockingQueuedConnection`); the `pushState` and `popState`
updates use non-blocking `Qt::QueuedConnection`. -/
theorem c6_connection_types (env : REnv) (pages : List Int) :
    (recognize env pages).all connOk = true := by
  by_cases hok : initTesseractOk env.initRet = true
  · by_cases hfail : (runPages env pages 0).2 = []
    · simp [recognize, hok, hfail, connOk, runPages_connOk]
    · simp [recognize, hok, hfail, connOk, runPages_connOk]
  · simp [recognize, hok]

/-- Projection of a recognition trace to its core page-processing calls: the
blocking queued `setPage` invocations and the per-area `tess->Recognize`
calls. -/
def isCoreEvent : REvent → Bool
  | REvent.uiInvoke (UITarget.setPage _) _ => true
  | REvent.tessRecognize _ _ => true
  | _ => false

/-- Core calls that one processed page contributes: its single `setPage`
invocation followed, when rendering succeeded, by exactly one
`tess->Recognize` call per OCR area. -/
def corePageSeg (env : REnv) (page : Int) : List REvent :=
  REvent.uiInvoke (UITarget.setPage page) ConnType.blockingQueued ::
    (if (env.pageData page).success then
      (env.pageData page).ocrAreas.map (fun a => REvent.tessRecognize page a)
    else [])

/-- Number of pages the loop enters before the list is exhausted or the
end-of-iteration cancellation check observes the cancellation, threading the
`monitor.cancelled()` call counter exactly as the loop does (one check per
area plus one end-of-iteration check on successfully rendered pages, none on
failed pages). -/
def processedCount (env : REnv) : List Int → Nat → Nat
  | [], _ => 0
  | page :: rest, cnt =>
    if (env.pageData page).success = false then processedCount env rest cnt + 1
    else if isCancelled env (cnt + (env.pageData page).ocrAreas.length) then 1
    else processedCount env rest (cnt + (env.pageData page).ocrAreas.length + 1) + 1

theorem runAreas_snd (env : REnv) (page : Int) (areas : List Nat) (cnt : Nat) :
    (runAreas env page areas cnt).2 = cnt + areas.length := by
  induction areas generalizing cnt with
  | nil => simp [runAreas]
  | cons a rest ih =>
    simp only [runAreas, ih, List.length_cons]
    omega

theorem runAreas_filter_core (env : REnv) (page : Int) (areas : List Nat)
    (cnt : Nat) :
    (runAreas env page areas cnt).1.filter isCoreEvent =
      areas.map (fun a => REvent.tessRecognize page a) := by
  induction areas generalizing cnt with
  | nil => rfl
  | cons a rest ih =>
    by_cases hc : isCancelled env cnt = true
    · simp [runAreas, hc, ih, isCoreEvent]
    · simp [runAreas, hc, ih, isCoreEvent]

theorem processedCount_le (env : REnv) (pages : List Int) (cnt : Nat) :
    processedCount env pages cnt ≤ pages.length := by
  induction pages generalizing cnt with
  | nil => simp [processedCount]
  | cons page rest ih =>
    simp only [processedCount, List.length_cons]
    split
    · have := ih cnt
      omega
    · split
      · omega
      · have := ih (cnt + (env.pageData page).ocrAreas.length + 1)
        omega

theorem processedCount_of_no_cancel (env : REnv) (hnone : env.cancelAt = none)
    (pages : List Int) (cnt : Nat) :
    processedCount env pages cnt = pages.length := by
  induction pages generalizing cnt with
  | nil => rfl
  | cons page rest ih =>
    have hcf : ∀ n, isCancelled env n = false := fun n => by
      simp [isCancelled, hnone]
    simp only [processedCount, List.length_cons, hcf, Bool.false_eq_true,
      if_false, ih, ite_self]

theorem runPages_filter_core (env : REnv) (pages : List Int) (cnt : Nat) :
    (runPages env pages cnt).1.filter isCoreEvent =
      (pages.take (processedCount env pages cnt)).flatMap (corePageSeg env) := by
  induction pages generalizing cnt with
  | nil => rfl
  | cons page rest ih =>
    by_cases hf : (env.pageData page).success = false
    · simp [runPages, processedCount, hf, isCoreEvent, corePageSeg, ih,
        List.take_succ_cons]
    · have hs : (env.pageData page).success = true := by
        revert hf
        cases (env.pageData page).success <;> simp
      rw [runPages, processedCount]
      rw [runAreas_snd]
      simp only [hf, if_false, hs, if_true]
      by_cases hc : isCancelled env (cnt + (env.pageData page).ocrAreas.length) = true
      · simp [hc, isCoreEvent, corePageSeg, hs, runAreas_filter_core,
          List.filter_append]
      · simp [hc, isCoreEvent, corePageSeg, hs, runAreas_filter_core,
          List.filter_append, ih, List.take_succ_cons]

/-- C4: the recognition loop processes the selected pages strictly
sequentially in list order: there is a processed prefix (of length
`processedCount`, at most the whole list) such that the core calls of the
trace are exactly, per processed page in order, one `setPage` invocation
followed on success by one `tess->Recognize` call per OCR area of that page,
all before the next page's calls; a proper prefix happens only when the
session was cancelled; and once the end-of-iteration check of a page observes
the cancellation the loop behaves as if the remaining pages were absent. -/
theorem c4_sequential_processing (env : REnv) (pages : List Int)
    (hok : initTesseractOk env.initRet = true) :
    processedCount env pages 0 ≤ pages.length
    ∧ (recognize env pages).filter isCoreEvent =
        (pages.take (processedCount env pages 0)).flatMap (corePageSeg env)
    ∧ (env.cancelAt = none → processedCount env pages 0 = pages.length)
    ∧ (∀ page rest cnt, (env.pageData page).success = true →
        isCancelled env (cnt + (env.pageData page).ocrAreas.length) = true →
        runPages env (page :: rest) cnt = runPages env [page] cnt) := by
  refine ⟨processedCount_le env pages 0, ?_, fun h => processedCount_of_no_cancel env h pages 0, ?_⟩
  · rw [← runPages_filter_core]
    by_cases hfail : (runPages env pages 0).2 = []
    · simp [recognize, hok, hfail, isCoreEvent, List.filter_append]
    · simp [recognize, hok, hfail, isCoreEvent, List.filter_append]
  · intro page rest cnt hsucc hcanc
    have hf : ¬(env.pageData page).success = false := by simp [hsucc]
    rw [runPages, runPages]
    rw [runAreas_snd]
    simp [hf, hcanc]

/-- Witness for C4 at the concrete sessions `envOnePage` (no cancellation)
and `envCancel` (cancellation observed at the end of the first page's
iteration, page 2 not processed). -/
theorem c4_witness :
    processedCount envOnePage [1] 0 ≤ [1].length
    ∧ runPages envCancel [1, 2] 0 = runPages envCancel [1] 0 :=
  ⟨(c4_sequential_processing envOnePage [1] rfl).1,
    (c4_sequential_processing envCancel [1, 2] rfl).2.2.2 1 [2] 0 rfl rfl⟩

/-- Whether an event is a per-page output-editor call (`read` or
`readError`). -/
def isEditorPageEvent : REvent → Bool
  | REvent.read _ _ => true
  | REvent.readError _ => true
  | _ => false

/-- Whether an event is one of the session-bracketing output-editor calls
(`initRead` or `finalizeRead`). -/
def isSessionMarker : REvent → Bool
  | REvent.initRead => true
  | REvent.finalizeRead => true
  | _ => false

/-- The per-area `read` calls of one successfully rendered page: the read of
an area happens exactly when the `monitor.cancelled()` check before it does
not observe the cancellation (`cnt` is the check counter). -/
def readsOf (env : REnv) (page : Int) : List Nat → Nat → List REvent
  | [], _ => []
  | a :: rest, cnt =>
    (if isCancelled env cnt then [] else [REvent.read page a]) ++
      readsOf env page rest (cnt + 1)

/-- The output-editor page events described by claim C5: per page, either its
per-area reads (success, each read only when the session has not been
cancelled) or one `readError` (render failure), stopping after the page at
whose end-of-iteration check the cancellation is observed. -/
def specEditorEvents (env : REnv) : List Int → Nat → List REvent
  | [], _ => []
  | page :: rest, cnt =>
    if (env.pageData page).success = false then
      REvent.readError page :: specEditorEvents env rest cnt
    else if isCancelled env (cnt + (env.pageData page).ocrAreas.length) then
      readsOf env page (env.pageData page).ocrAreas cnt
    else
      readsOf env page (env.pageData page).ocrAreas cnt ++
        specEditorEvents env rest (cnt + (env.pageData page).ocrAreas.length + 1)

theorem runAreas_filter_editor (env : REnv) (page : Int) (areas : List Nat)
    (cnt : Nat) :
    (runAreas env page areas cnt).1.filter isEditorPageEvent =
      readsOf env page areas cnt := by
  induction areas generalizing cnt with
  | nil => rfl
  | cons a rest ih =>
    by_cases hc : isCancelled env cnt = true
    · simp [runAreas, readsOf, hc, ih, isEditorPageEvent]
    · simp [runAreas, readsOf, hc, ih, isEditorPageEvent]

theorem runPages_filter_editor (env : REnv) (pages : List Int) (cnt : Nat) :
    (runPages env pages cnt).1.filter isEditorPageEvent =
      specEditorEvents env pages cnt := by
  induction pages generalizing cnt with
  | nil => rfl
  | cons page rest ih =>
    by_cases hf : (env.pageData page).success = false
    · simp [runPages, specEditorEvents, hf, isEditorPageEvent, ih]
    · rw [runPages, specEditorEvents, runAreas_snd]
      by_cases hc :
          isCancelled env (cnt + (env.pageData page).ocrAreas.length) = true
      · simp [hf, hc, isEditorPageEvent, runAreas_filter_editor,
          List.filter_append]
      · simp [hf, hc, isEditorPageEvent, runAreas_filter_editor,
          List.filter_append, ih]

theorem runAreas_no_marker (env : REnv) (page : Int) (areas : List Nat)
    (cnt : Nat) :
    ∀ e ∈ (runAreas env page areas cnt).1, isSessionMarker e = false := by
  induction areas generalizing cnt with
  | nil => intro e he; cases he
  | cons a rest ih =>
    simp only [runAreas, List.cons_append, List.forall_mem_cons,
      List.forall_mem_append]
    refine ⟨rfl, ?_, ih (cnt + 1)⟩
    split
    · intro e he; cases he
    · intro e he
      simp only [List.mem_singleton] at he
      subst he
      rfl

theorem runPages_no_marker (env : REnv) (pages : List Int) (cnt : Nat) :
    ∀ e ∈ (runPages env pages cnt).1, isSessionMarker e = false := by
  induction pages generalizing cnt with
  | nil => intro e he; cases he
  | cons page rest ih =>
    by_cases hf : (env.pageData page).success = false
    · simp only [runPages, if_pos hf, List.forall_mem_cons]
      exact ⟨rfl, rfl, rfl, ih cnt⟩
    · rw [runPages]
      rw [if_neg hf]
      split
      · simp only [List.forall_mem_cons, List.forall_mem_append,
          List.forall_mem_singleton]
        exact ⟨⟨rfl, rfl, runAreas_no_marker env page _ cnt⟩, rfl,
          List.forall_mem_nil _⟩
      · simp only [List.forall_mem_cons, List.forall_mem_append]
        exact ⟨⟨rfl, rfl, runAreas_no_marker env page _ cnt⟩, rfl, ih _⟩

theorem runPages_marker_not_mem (env : REnv) (pages : List Int) (cnt : Nat) :
    REvent.initRead ∉ (runPages env pages cnt).1
    ∧ REvent.finalizeRead ∉ (runPages env pages cnt).1 := by
  constructor <;> intro hm <;>
    simpa [isSessionMarker] using runPages_no_marker env pages cnt _ hm

/-- C5: in every session whose tesseract initialization succeeds, the trace
starts with exactly one `initRead` (before any page is processed); the
per-page output-editor events are exactly, page by page, either the page's
per-area `read` calls (each made only when the session has not been
cancelled) or one `readError` on render failure; and there is exactly one
`finalizeRead`, placed after the whole page loop, regardless of failures or
cancellation (followed only by the possible failure message box, which makes
no editor call). -/
theorem c5_editor_call_protocol (env : REnv) (pages : List Int)
    (hok : initTesseractOk env.initRet = true) :
    (recognize env pages).head? = some REvent.initRead
    ∧ (recognize env pages).count REvent.initRead = 1
    ∧ (recognize env pages).count REvent.finalizeRead = 1
    ∧ (recognize env pages).filter isEditorPageEvent = specEditorEvents env pages 0
    ∧ (∃ tail, recognize env pages =
        REvent.initRead :: ((runPages env pages 0).1 ++ REvent.finalizeRead :: tail)
        ∧ tail.filter isEditorPageEvent = []) := by
  have hni := (runPages_marker_not_mem env pages 0).1
  have hnf := (runPages_marker_not_mem env pages 0).2
  have htail :
      ∀ t ∈ (if (runPages env pages 0).2 = [] then ([] : List REvent)
             else [REvent.msgBoxRecogErrors (runPages env pages 0).2]),
        t = REvent.msgBoxRecogErrors (runPages env pages 0).2 := by
    split
    · intro t ht; cases ht
    · intro t ht
      simpa using ht
  have htr : recognize env pages =
      REvent.initRead :: ((runPages env pages 0).1 ++ REvent.finalizeRead ::
        (if (runPages env pages 0).2 = [] then ([] : List REvent)
         else [REvent.msgBoxRecogErrors (runPages env pages 0).2])) := by
    simp [recognize, hok]
  refine ⟨?_, ?_, ?_, ?_, ?_⟩
  · rw [htr]; rfl
  · rw [htr]
    rw [List.count_cons_self, List.count_append, List.count_eq_zero.mpr hni,
      List.count_cons_of_ne (by simp)]
    rw [List.count_eq_zero.mpr]
    intro hm
    have := htail _ hm
    cases this
  · rw [htr]
    rw [List.count_cons_of_ne (by simp), List.count_append,
      List.count_eq_zero.mpr hnf, List.count_cons_self]
    rw [List.count_eq_zero.mpr]
    intro hm
    have := htail _ hm
    cases this
  · rw [htr]
    rw [← runPages_filter_editor env pages 0]
    simp only [List.filter_cons, List.filter_append]
    have h1 : isEditorPageEvent REvent.initRead = false := rfl
    have h2 : isEditorPageEvent REvent.finalizeRead = false := rfl
    rw [h1, h2]
    simp only [Bool.false_eq_true, if_false]
    have h3 : (List.filter isEditorPageEvent
        (if (runPages env pages 0).2 = [] then ([] : List REvent)
         else [REvent.msgBoxRecogErrors (runPages env pages 0).2])) = [] := by
      split <;> rfl
    rw [h3, List.append_nil]
  · refine ⟨(if (runPages env pages 0).2 = [] then ([] : List REvent)
      else [REvent.msgBoxRecogErrors (runPages env pages 0).2]), htr, ?_⟩
    split <;> rfl

/-- Witness for C5 at the concrete session `envOnePage` with page list
`[1]`. -/
theorem c5_witness : (recognize envOnePage [1]).count REvent.initRead = 1 :=
  (c5_editor_call_protocol envOnePage [1] rfl).2.1

/-! ### `MainWindow::dictionaryAutoinstall`, non-PackageKit path (C7)

The downloads and file writes are external effects; the model records, per
candidate dictionary file, whether its download returned data
(`!data.isNull()`) and whether the target file could be opened for writing,
and per language whether the per-language listing download was non-empty. -/

/-- One candidate dictionary file of the inner download loop. -/
structure DictFile where
  name : String
  downloadOk : Bool
  openOk : Bool
deriving DecidableEq

/-- One language directory found in the main listing. -/
structure DictLang where
  htmlOk : Bool
  files : List DictFile
deriving DecidableEq

/-- Environment of one `dictionaryAutoinstall` run (non-PackageKit path):
whether `QDir().mkpath` succeeded, whether the main listing download was
non-empty, the languages with their candidate files, and the language code. -/
structure DictEnv where
  mkpathOk : Bool
  listingOk : Bool
  langs : List DictLang
  code : String
deriving DecidableEq

/-- The modal message box `dictionaryAutoinstall` ends with. -/
inductive DictOutcome
  | errorCreateDir
  | errorReadListing
  | criticalFailed (failed : List String)
  | infoInstalled (downloaded : List String)
  | errorNoDictionaries (code : String)
deriving DecidableEq

/-- The per-file body of the inner download loop: a file whose download
returned data and which could be opened for writing is appended to
`downloaded`; otherwise it is appended to `failed` (accumulator =
`(downloaded, failed)`). -/
def installFiles : List DictFile → List String × List String → List String × List String
  | [], acc => acc
  | f :: rest, acc =>
    if f.downloadOk then
      if f.openOk then installFiles rest (acc.1 ++ [f.name], acc.2)
      else installFiles rest (acc.1, acc.2 ++ [f.name])
    else installFiles rest (acc.1, acc.2 ++ [f.name])

/-- The outer language loop: a language whose per-language listing download
came back empty is skipped (`continue`), the others contribute their files in
order. -/
def installLoop : List DictLang → List String × List String → List String × List String
  | [], acc => acc
  | lang :: rest, acc =>
    if lang.htmlOk then installLoop rest (installFiles lang.files acc)
    else installLoop rest acc

/-- `MainWindow::dictionaryAutoinstall`, non-PackageKit download path: error
boxes for a failed directory creation or an empty main listing; otherwise the
download loops run and the function ends with a critical box listing the
failed files when any failed, else an information box listing the installed
files when any were downloaded, else an error box naming the language code. -/
def dictionaryAutoinstall (env : DictEnv) : DictOutcome :=
  if env.mkpathOk = false then DictOutcome.errorCreateDir
  else if env.listingOk = false then DictOutcome.errorReadListing
  else
    if (installLoop env.langs ([], [])).2 ≠ [] then
      DictOutcome.criticalFailed (installLoop env.langs ([], [])).2
    else if (installLoop env.langs ([], [])).1 ≠ [] then
      DictOutcome.infoInstalled (installLoop env.langs ([], [])).1
    else DictOutcome.errorNoDictionaries env.code

/-- The failed files according to claim C7: every file (of a language whose
listing downloaded) that failed to download or could not be opened for
writing, in processing order. -/
def specFailedFiles (env : DictEnv) : List String :=
  (env.langs.filter (fun l => l.htmlOk)).flatMap
    (fun l => (l.files.filter (fun f => !(f.downloadOk && f.openOk))).map
      (fun f => f.name))

/-- The installed files according to claim C7: every file that downloaded and
could be opened for writing, in processing order. -/
def specDownloadedFiles (env : DictEnv) : List String :=
  (env.langs.filter (fun l => l.htmlOk)).flatMap
    (fun l => (l.files.filter (fun f => f.downloadOk && f.openOk)).map
      (fun f => f.name))

theorem installFiles_eq (files : List DictFile) (acc : List String × List String) :
    installFiles files acc =
      (acc.1 ++ (files.filter (fun f => f.downloadOk && f.openOk)).map (fun f => f.name),
        acc.2 ++ (files.filter (fun f => !(f.downloadOk && f.openOk))).map (fun f => f.name)) := by
  induction files generalizing acc with
  | nil => simp [installFiles]
  | cons f rest ih =>
    by_cases hd : f.downloadOk = true
    · by_cases ho : f.openOk = true
      · simp [installFiles, hd, ho, ih, List.append_assoc]
      · simp [installFiles, hd, ho, ih, List.append_assoc]
    · simp [installFiles, hd, ih, List.append_assoc]

theorem installLoop_eq (langs : List DictLang) (acc : List String × List String) :
    installLoop langs acc =
      (acc.1 ++ (langs.filter (fun l => l.htmlOk)).flatMap
          (fun l => (l.files.filter (fun f => f.downloadOk && f.openOk)).map (fun f => f.name)),
        acc.2 ++ (langs.filter (fun l => l.htmlOk)).flatMap
          (fun l => (l.files.filter (fun f => !(f.downloadOk && f.openOk))).map (fun f => f.name))) := by
  induction langs generalizing acc with
  | nil => simp [installLoop]
  | cons lang rest ih =>
    by_cases hh : lang.htmlOk = true
    · simp [installLoop, hh, installFiles_eq, ih, List.append_assoc]
    · simp [installLoop, hh, ih]

/-- C7: in the non-PackageKit download path, the failure list contains
exactly the dictionary files that failed to download or could not be opened
for writing, the download list exactly the installed files; at the end, a
modal critical box lists the failed names when any file failed, otherwise an
information box lists the installed files when at least one was downloaded,
otherwise an error box states that no dictionaries were found for the
language code. -/
theorem c7_dictionary_autoinstall (env : DictEnv)
    (hmk : env.mkpathOk = true) (hlist : env.listingOk = true) :
    (installLoop env.langs ([], [])).2 = specFailedFiles env
    ∧ (installLoop env.langs ([], [])).1 = specDownloadedFiles env
    ∧ dictionaryAutoinstall env =
        (if specFailedFiles env ≠ [] then
          DictOutcome.criticalFailed (specFailedFiles env)
        else if specDownloadedFiles env ≠ [] then
          DictOutcome.infoInstalled (specDownloadedFiles env)
        else DictOutcome.errorNoDictionaries env.code) := by
  have h2 : (installLoop env.langs ([], [])).2 = specFailedFiles env := by
    rw [installLoop_eq]
    simp [specFailedFiles]
  have h1 : (installLoop env.langs ([], [])).1 = specDownloadedFiles env := by
    rw [installLoop_eq]
    simp [specDownloadedFiles]
  refine ⟨h2, h1, ?_⟩
  simp [dictionaryAutoinstall, hmk, hlist, h1, h2]

/-- A concrete `dictionaryAutoinstall` environment: one language directory,
one file installed and one failed download. -/
def dictEnvSample : DictEnv :=
  ⟨true, true, [⟨true, [⟨"en.dic", true, true⟩, ⟨"en.aff", false, true⟩]⟩], "en"⟩

/-- Witness for C7 at the concrete environment `dictEnvSample`. -/
theorem c7_witness :
    dictionaryAutoinstall dictEnvSample =
      (if specFailedFiles dictEnvSample ≠ [] then
        DictOutcome.criticalFailed (specFailedFiles dictEnvSample)
      else if specDownloadedFiles dictEnvSample ≠ [] then
        DictOutcome.infoInstalled (specDownloadedFiles dictEnvSample)
      else DictOutcome.errorNoDictionaries dictEnvSample.code) :=
  (c7_dictionary_autoinstall dictEnvSample rfl rfl).2.2

/-! ### `Recognizer::setMultiLanguage` (C9) -/

/-- One action of the multilanguage check group (`m_langMenuCheckGroup`), in
menu order: whether it is checked and its data string (the tesseract language
of the menu entry). -/
structure CheckAction where
  checked : Bool
  langData : String

/-- Models `QString::left(n)` for `n` at most the length: the first `n`
characters. -/
def qStringLeft (s : String) (n : Nat) : String := ⟨s.data.take n⟩

/-- The accumulation loop of `setMultiLanguage`: `langs += data + "+"` over
the checked actions of the check group, in order. -/
def multiLangJoined (actions : List CheckAction) : String :=
  actions.foldl (fun acc a => if a.checked then acc ++ a.langData ++ "+" else acc) ""

/-- The language string `Recognizer::setMultiLanguage` ends up with: the
accumulated `data + "+"` pieces (or `"eng+"` when nothing is checked), with
the final character removed by `langs.left(langs.length() - 1)`. -/
def multiLangSel (actions : List CheckAction) : String :=
  qStringLeft (if multiLangJoined actions = "" then "eng+" else multiLangJoined actions)
    ((if multiLangJoined actions = "" then "eng+" else multiLangJoined actions).length - 1)

/-- `Recognizer::setMultiLanguage`: the resulting language (label,
`m_curLang.prefix`) and the persisted `"language"` setting
(`langs + ":"`). -/
def setMultiLanguage (actions : List CheckAction) : String × String :=
  (multiLangSel actions, multiLangSel actions ++ ":")

/-- Joining a list of strings with `+` separators, following claim C9's
words. -/
def plusJoin : List String → String
  | [] => ""
  | [s] => s
  | s :: rest => s ++ "+" ++ plusJoin rest

theorem foldl_checked_data (actions : List CheckAction) (acc : String) :
    (actions.foldl (fun acc a => if a.checked then acc ++ a.langData ++ "+" else acc) acc).data =
      acc.data ++ (((actions.filter (fun a => a.checked)).map (fun a => a.langData)).map
        (fun s => s.data ++ ['+'])).flatten := by
  induction actions generalizing acc with
  | nil => simp
  | cons a rest ih =>
    by_cases hch : a.checked = true
    · simp [List.foldl_cons, hch, ih, String.data_append, List.append_assoc]
    · simp [List.foldl_cons, hch, ih]

theorem plusJoin_data_append (l : List String) (hl : l ≠ []) :
    (l.map (fun s => s.data ++ ['+'])).flatten = (plusJoin l).data ++ ['+'] := by
  induction l with
  | nil => cases hl rfl
  | cons s rest ih =>
    cases rest with
    | nil => simp [plusJoin]
    | cons t ts =>
      have ihh := ih (by simp)
      calc (List.map (fun s => s.data ++ ['+']) (s :: t :: ts)).flatten
          = (s.data ++ ['+']) ++
              (List.map (fun s => s.data ++ ['+']) (t :: ts)).flatten := by
            simp
        _ = (s.data ++ ['+']) ++ ((plusJoin (t :: ts)).data ++ ['+']) := by
            rw [ihh]
        _ = (plusJoin (s :: t :: ts)).data ++ ['+'] := by
            simp [plusJoin, String.data_append, List.append_assoc]

theorem getLast?_ne_plus_of_not_mem {l : List Char} (h : '+' ∉ l) :
    l.getLast? ≠ some '+' := by
  intro hl
  obtain ⟨hne, heq⟩ := List.mem_getLast?_eq_getLast
    (show '+' ∈ l.getLast? by simpa [Option.mem_def] using hl)
  exact h (heq ▸ List.getLast_mem hne)

theorem plusJoin_props (l : List String) (hl : l ≠ [])
    (h : ∀ s ∈ l, s.data ≠ [] ∧ '+' ∉ s.data) :
    (plusJoin l).data ≠ [] ∧ (plusJoin l).data.getLast? ≠ some '+' := by
  induction l with
  | nil => cases hl rfl
  | cons s rest ih =>
    cases rest with
    | nil =>
      have hs := h s (by simp)
      exact ⟨by simpa [plusJoin] using hs.1,
        by simpa [plusJoin] using getLast?_ne_plus_of_not_mem hs.2⟩
    | cons t ts =>
      have hrec := ih (by simp) (fun u hu => h u (List.mem_cons_of_mem s hu))
      have hdata : (plusJoin (s :: t :: ts)).data =
          (s.data ++ ['+']) ++ (plusJoin (t :: ts)).data := by
        simp [plusJoin, String.data_append, List.append_assoc]
      constructor
      · rw [hdata]
        simp [hrec.1]
      · rw [hdata, List.getLast?_append_of_ne_nil _ hrec.1]
        exact hrec.2

/-- C9: `setMultiLanguage` sets the current language string to the `+`-join,
in menu order, of the checked actions' languages, or to `eng` when none is
checked; the persisted `"language"` setting is that string followed by `:`;
and (provided the checked languages are non-empty strings without `+`, as
tesseract language names are) the resulting string is non-empty and does not
end with `+`. -/
theorem c9_setMultiLanguage (actions : List CheckAction) :
    (setMultiLanguage actions).1 =
      (if (actions.filter (fun a => a.checked)).map (fun a => a.langData) = [] then "eng"
       else plusJoin ((actions.filter (fun a => a.checked)).map (fun a => a.langData)))
    ∧ (setMultiLanguage actions).2 = (setMultiLanguage actions).1 ++ ":"
    ∧ ((∀ s ∈ (actions.filter (fun a => a.checked)).map (fun a => a.langData),
          s.data ≠ [] ∧ '+' ∉ s.data) →
        (setMultiLanguage actions).1.data ≠ []
        ∧ (setMultiLanguage actions).1.data.getLast? ≠ some '+') := by
  have hjdata : (multiLangJoined actions).data =
      (((actions.filter (fun a => a.checked)).map (fun a => a.langData)).map
        (fun s => s.data ++ ['+'])).flatten := by
    simpa using foldl_checked_data actions ""
  have hsel : (setMultiLanguage actions).1 =
      (if (actions.filter (fun a => a.checked)).map (fun a => a.langData) = [] then "eng"
       else plusJoin ((actions.filter (fun a => a.checked)).map (fun a => a.langData))) := by
    by_cases hnil : (actions.filter (fun a => a.checked)).map (fun a => a.langData) = []
    · have hjoined : multiLangJoined actions = "" := by
        apply String.ext
        rw [hjdata, hnil]
        rfl
      rw [if_pos hnil]
      show multiLangSel actions = "eng"
      unfold multiLangSel
      rw [if_pos hjoined]
      rfl
    · have hflat := plusJoin_data_append _ hnil
      have hjoined_ne : multiLangJoined actions ≠ "" := by
        intro h0
        have hd : (multiLangJoined actions).data = [] := by rw [h0]
        rw [hjdata, hflat] at hd
        simp at hd
      rw [if_neg hnil]
      show multiLangSel actions = _
      unfold multiLangSel
      rw [if_neg hjoined_ne]
      apply String.ext
      show (multiLangJoined actions).data.take ((multiLangJoined actions).length - 1) = _
      have hlen : (multiLangJoined actions).length =
          (plusJoin ((actions.filter (fun a => a.checked)).map
            (fun a => a.langData))).data.length + 1 := by
        show (multiLangJoined actions).data.length = _
        rw [hjdata, hflat]
        simp
      rw [hlen, hjdata, hflat]
      have h1 : (plusJoin ((actions.filter (fun a => a.checked)).map
          (fun a => a.langData))).data.length + 1 - 1 =
          (plusJoin ((actions.filter (fun a => a.checked)).map
            (fun a => a.langData))).data.length := rfl
      rw [h1]
      exact List.take_left _ _
  refine ⟨hsel, rfl, fun h => ?_⟩
  rw [hsel]
  by_cases hnil : (actions.filter (fun a => a.checked)).map (fun a => a.langData) = []
  · rw [if_pos hnil]
    exact ⟨by decide, by decide⟩
  · rw [if_neg hnil]
    exact plusJoin_props _ hnil h

/-- Witness for C9's conditional part at a concrete check group: two checked
entries `deu` and `fra` and one unchecked. -/
theorem c9_witness :
    (setMultiLanguage [⟨true, "deu"⟩, ⟨false, "eng"⟩, ⟨true, "fra"⟩]).1.data ≠ []
    ∧ (setMultiLanguage [⟨true, "deu"⟩, ⟨false, "eng"⟩,
        ⟨true, "fra"⟩]).1.data.getLast? ≠ some '+' :=
  (c9_setMultiLanguage [⟨true, "deu"⟩, ⟨false, "eng"⟩, ⟨true, "fra"⟩]).2.2
    (by decide)

/-! ### The version check of `MainWindow` (C10) -/

/-- Models `newver.replace(QRegExp("\s+"), "")` on the downloaded string. -/
def removeWsString (s : String) : String := ⟨removeWs s.data⟩

/-- Models `QRegExp(R"(^[\d+\.]+\d+$)").exactMatch(s)`: the anchored pattern
matches exactly when the string consists only of digits, `+` and `.`, has at
least two characters, and ends in a digit (the final `\d+` takes the last
digit, `[\d+\.]+` the rest; `\d` modelled as an ASCII digit). -/
def versionPatMatch (s : String) : Bool :=
  s.data.all (fun c => c.isDigit || c = '+' || c = '.')
    && decide (2 ≤ s.data.length)
    && (match s.data.getLast? with
        | some c => c.isDigit
        | none => false)

/-- `MainWindow::VersionCheckThread::run`: download, strip all whitespace,
store the result into `m_newestVersion` only when the pattern matches
(otherwise the member keeps its default-constructed empty value). -/
def versionCheckThreadRun (downloaded : String) : String :=
  if versionPatMatch (removeWsString downloaded) then removeWsString downloaded
  else ""

/-- Strict lexicographic greater-than on character sequences: models
`QString::compare(other) > 0` (per-character comparison, a longer string
with an equal prefix compares greater). -/
def lexGT : List Char → List Char → Bool
  | [], [] => false
  | [], _ :: _ => false
  | _ :: _, [] => true
  | a :: as, b :: bs => if a = b then lexGT as bs else decide (b < a)

/-- `MainWindow::checkVersion`: the new-version notification is displayed
when the stored newest version is non-empty and compares greater than the
current package version `curver`. -/
def checkVersionNotifies (downloaded curver : String) : Bool :=
  if versionCheckThreadRun downloaded = "" then false
  else lexGT (versionCheckThreadRun downloaded).data curver.data

/-- C10: the new-version notification is displayed if and only if the
downloaded string, after removal of all whitespace, exactly matches
`^[\d+\.]+\d+$` and is greater than the current package version under plain
lexicographic string comparison. -/
theorem c10_version_notification (downloaded curver : String) :
    checkVersionNotifies downloaded curver =
      (versionPatMatch (removeWsString downloaded)
        && lexGT (removeWsString downloaded).data curver.data) := by
  by_cases hm : versionPatMatch (removeWsString downloaded) = true
  · have hne : removeWsString downloaded ≠ "" := by
      intro h0
      rw [h0] at hm
      simp [versionPatMatch] at hm
    simp [checkVersionNotifies, versionCheckThreadRun, hm, hne]
  · simp [checkVersionNotifies, versionCheckThreadRun, hm]

end GImageReader
